import Mathlib

/-!
Verification development for the single-endpoint data-enrichment pipeline
implemented in `src/api/pipeline.js`.  The JavaScript source is embedded
shallowly: pure helpers become Lean functions, the stateful per-item loop
becomes explicit state passing over a `LoopState` record, and the external
collaborators (HTTP fetch, the AI provider, `JSON.parse`, the file system)
become explicit parameters describing their outcome for the one invocation
under study.  The handler's enrichment-call behaviour is made observable by
an `enrichCalls` trace recording the ids of the items for which the
Enrichment Client was actually invoked.
-/

/-- A JavaScript value, as far as the pipeline's `Boolean(...)` coercions and
truthiness tests on the `stored` flag can observe it. -/
inductive JsVal where
  | undef
  | null
  | bool (b : Bool)
  | num (n : Int)
  | str (s : String)
deriving DecidableEq, Repr

/-- JavaScript truthiness for the fragment of values in `JsVal`. -/
def JsVal.truthy : JsVal → Bool
  | .undef => false
  | .null => false
  | .bool b => b
  | .num n => decide (n ≠ 0)
  | .str s => decide (s ≠ "")

/-- The whitespace class used by the regex `\s` and by `String.prototype.trim`
(ASCII whitespace plus no-break space; the rarer Unicode space characters are
not needed by any claim). -/
def jsWhitespace (c : Char) : Bool :=
  c = ' ' || c = '\t' || c = '\n' || c = '\r' ||
  c = Char.ofNat 11 || c = Char.ofNat 12 || c = Char.ofNat 160

/-- JavaScript `String.prototype.trim`: drop whitespace from both ends. -/
def jsTrim (s : String) : String :=
  ⟨((s.data.dropWhile jsWhitespace).reverse.dropWhile jsWhitespace).reverse⟩

/-- Does the character list contain `pat` as a contiguous run? -/
def containsSub (pat : List Char) : List Char → Bool
  | [] => List.isPrefixOf pat []
  | c :: rest => List.isPrefixOf pat (c :: rest) || containsSub pat rest

/-- Case-insensitive substring test: `pat` is given in lower case and matched
against the lower-cased `s` (the effect of a `/.../i` regex made of plain
letters applied with `test`).  Lower-casing is per character, which agrees
with `toLowerCase` on the ASCII patterns involved. -/
def containsCI (s pat : String) : Bool :=
  containsSub pat.data (s.data.map Char.toLower)

/-- A word character in the sense of the regex class `\w`. -/
def isWordChar (c : Char) : Bool :=
  c.isAlphanum || c = '_'

/-- Scan for an occurrence of `429` flanked by word boundaries, i.e. the
regex `\b429\b`.  `prev` is the character just before the current position
(`none` at the start of the string). -/
def hasWord429Aux (prev : Option Char) : List Char → Bool
  | '4' :: '2' :: '9' :: rest =>
    ((match prev with
      | none => true
      | some p => !isWordChar p) &&
     (match rest with
      | [] => true
      | c :: _ => !isWordChar c)) ||
    hasWord429Aux (some '4') ('2' :: '9' :: rest)
  | c :: rest => hasWord429Aux (some c) rest
  | [] => false

/-- `isQuotaError` from the source: the error message matches
`/\b429\b|quota exceeded|rate limit/i`. -/
def isQuotaError (msg : String) : Bool :=
  hasWord429Aux none msg.data || containsCI msg "quota exceeded" ||
    containsCI msg "rate limit"

/-- The backtick character, written by code point to keep the source plain. -/
def fenceChar : Char := Char.ofNat 96

/-- Does the character list start with the four letters of the fence tag
`json`, case-insensitively? -/
def isJsonTagAt : List Char → Bool
  | a :: b :: c :: d :: _ =>
    a.toLower = 'j' && b.toLower = 's' && c.toLower = 'o' && d.toLower = 'n'
  | _ => false

/-- One left-to-right pass of the global replacement
`text.replace(/PAT/gi, "")` where `PAT` is a triple fence followed by the tag
`json` and trailing whitespace, or else a bare triple fence. -/
def stripFencesAux : List Char → List Char
  | [] => []
  | c :: rest =>
    if c = fenceChar ∧ rest.take 2 = [fenceChar, fenceChar] then
      let after := rest.drop 2
      if isJsonTagAt after then
        stripFencesAux ((after.drop 4).dropWhile jsWhitespace)
      else
        stripFencesAux after
    else
      c :: stripFencesAux rest
termination_by l => l.length
decreasing_by
  · simp only [List.length_cons]
    have h1 : (((rest.drop 2).drop 4).dropWhile jsWhitespace).length ≤
        ((rest.drop 2).drop 4).length :=
      (List.dropWhile_suffix jsWhitespace).sublist.length_le
    have h2 := List.length_drop 4 (rest.drop 2)
    have h3 := List.length_drop 2 rest
    omega
  · simp only [List.length_cons]
    have h3 := List.length_drop 2 rest
    omega
  · simp only [List.length_cons]
    omega

/-- `stripCodeFences` from the source: remove code-fence markers, then trim.
The source's non-string guard (`typeof text !== "string"`) is outside the
model because the embedded input is always a string. -/
def stripCodeFences (text : String) : String :=
  jsTrim ⟨stripFencesAux text.data⟩

/-- `normalizeSentiment` from the source: lower-case the text and pick the
first matching category, defaulting to `objective`. -/
def normalizeSentiment (text : String) : String :=
  let lowered := text.data.map Char.toLower
  if containsSub "enthusiastic".data lowered ||
      containsSub "positive".data lowered then
    "enthusiastic"
  else if containsSub "critical".data lowered ||
      containsSub "negative".data lowered then
    "critical"
  else
    "objective"

/-- The result of `analyzeWithGemini`: a summary and a sentiment label. -/
structure AnalysisResult where
  summary : String
  sentiment : String
deriving DecidableEq, Repr

/-- The observable part of a successful `JSON.parse` of the provider reply,
as the source inspects it: `summary` with `""` standing for an absent or
falsy field, and likewise `sentiment` (the source reads it as
`parsed.sentiment || ""`). -/
structure ParsedReply where
  summary : String
  sentiment : String
deriving DecidableEq, Repr

/-- The fixed fallback model list from the source, in order. -/
def fallbackModels : List String :=
  ["gemma-3-27b-it", "gemma-3-12b-it", "gemma-3-1b-it",
   "gemini-1.5-flash-latest", "gemini-1.5-flash",
   "gemini-2-flash-latest", "gemini-2-flash",
   "gemini-3-pro-preview", "gemini-2.5-pro",
   "gemini-3-flash-latest", "gemini-3-flash", "gemini-2.5-flash"]

/-- Insertion-order deduplication, as `Array.from(new Set(...))` performs:
keep the first occurrence of every element. -/
def dedupFirst : List String → List String
  | [] => []
  | s :: rest => s :: (dedupFirst rest).filter (fun t => t ≠ s)

/-- The candidate model list of `analyzeWithGemini`: the configured model
first, then the fixed fallbacks, deduplicated and with falsy (empty) names
filtered out. -/
def modelCandidates (modelName : String) : List String :=
  (dedupFirst (modelName :: fallbackModels)).filter (fun s => s ≠ "")

/-- The retry classification in the model loop: the error message matches
`/not found|not supported/i`. -/
def isRetryableModelError (e : String) : Bool :=
  containsCI e "not found" || containsCI e "not supported"

/-- The model-candidate loop of `analyzeWithGemini`.  `lastError` is the
`lastError` variable of the source; on exhaustion the recorded failure is
thrown, and with no candidates at all the response text stays `""`. -/
def tryModelsAux (provider : String → Except String String)
    (lastError : Option String) : List String → Except String String
  | [] =>
    match lastError with
    | some e => Except.error e
    | none => Except.ok ""
  | m :: rest =>
    match provider m with
    | Except.ok t => Except.ok t
    | Except.error e =>
      if isRetryableModelError e then tryModelsAux provider (some e) rest
      else Except.error e

/-- `analyzeWithGemini` from the source.  `provider` is the remote
`generateContent` call (per model name), `parse` is `safeJsonParse` composed
with the field inspection the source performs; `parse _ = none` covers both a
parse failure and a falsy parse result. -/
def analyzeWithGemini (apiKey modelName : String)
    (provider : String → Except String String)
    (parse : String → Option ParsedReply) : Except String AnalysisResult :=
  if apiKey = "" then Except.error "Missing GEMINI_API_KEY"
  else
    match tryModelsAux provider none (modelCandidates modelName) with
    | Except.error e => Except.error e
    | Except.ok responseText =>
      match parse (stripCodeFences responseText) with
      | none =>
        Except.ok
          ⟨if jsTrim responseText = "" then "Analysis unavailable."
            else jsTrim responseText,
           normalizeSentiment responseText⟩
      | some p =>
        if p.summary = "" then
          Except.ok
            ⟨if jsTrim responseText = "" then "Analysis unavailable."
              else jsTrim responseText,
             normalizeSentiment responseText⟩
        else
          Except.ok ⟨p.summary, normalizeSentiment p.sentiment⟩

/-- An item fetched from the comment source. -/
structure SourceItem where
  id : Nat
  body : String
deriving DecidableEq, Repr

/-- A record of the persisted collection.  String fields use `""` for an
absent or falsy value (matching the `||` fallbacks in the source); the
`stored` flag is kept as a raw JavaScript value so the `Boolean(...)`
coercions of the source stay observable. -/
structure StoredRecord where
  id : Option Nat
  email : String
  source : String
  original : String
  analysis : String
  sentiment : String
  stored : JsVal
  timestamp : String
deriving DecidableEq, Repr

/-- A per-item entry of the response.  `source := none` models the field
being absent (the placeholder branches do not set it). -/
structure ResponseItem where
  original : String
  analysis : String
  sentiment : String
  stored : JsVal
  timestamp : String
  source : Option String
deriving DecidableEq, Repr

/-- A stage error pushed onto `response.errors`. -/
inductive StageError where
  | fetch (message : String) (status : Nat)
  | analysis (message : String) (itemId : Nat)
  | storage (message : String)
deriving DecidableEq, Repr

/-- `{...item, stored: Boolean(item?.stored)}` applied to a stored record. -/
def coerceStored (r : StoredRecord) : StoredRecord :=
  { r with stored := JsVal.bool r.stored.truthy }

/-- The load-time deduplication pass over `loadedItems`: drop records with a
null id or an id already seen, coerce `stored` on the survivors, preserve
order. -/
def dedupStoredAux (seen : List Nat) : List StoredRecord → List StoredRecord
  | [] => []
  | item :: rest =>
    match item.id with
    | none => dedupStoredAux seen rest
    | some i =>
      if i ∈ seen then dedupStoredAux seen rest
      else coerceStored item :: dedupStoredAux (i :: seen) rest

/-- The deduplicated `storedItems` computed from `loadedItems`. -/
def dedupStored (loaded : List StoredRecord) : List StoredRecord :=
  dedupStoredAux [] loaded

/-- `loadStorage` from the source: a read failure (`readResult = none`) or a
parse failure yields the empty collection. -/
def loadStorage (readResult : Option String)
    (parse : String → Option (List StoredRecord)) : List StoredRecord :=
  match readResult with
  | none => []
  | some content => (parse content).getD []

/-- Lookup in `cachedById`: the `Map` is populated in list order with later
`set` calls overwriting earlier ones, so `get` returns the last record of the
list carrying the id. -/
def cacheGet (stored : List StoredRecord) (i : Nat) : Option StoredRecord :=
  match stored with
  | [] => none
  | r :: rest =>
    match cacheGet rest i with
    | some x => some x
    | none => if r.id = some i then some r else none

/-- The response item built on the cache-hit path, with the source's `||`
fallbacks for falsy cached fields and the cached sentiment re-normalized. -/
def cacheHitItem (cached : StoredRecord) (comment : SourceItem)
    (itemTimestamp sourceName : String) : ResponseItem :=
  { original := if cached.original = "" then comment.body else cached.original
    analysis := if cached.analysis = "" then "Analysis unavailable."
      else cached.analysis
    sentiment := normalizeSentiment cached.sentiment
    stored := JsVal.bool true
    timestamp := if cached.timestamp = "" then itemTimestamp
      else cached.timestamp
    source := some (if cached.source = "" then sourceName else cached.source) }

/-- The placeholder response item used by the quota-latched and failure
branches (no `source` field is set there). -/
def placeholderItem (comment : SourceItem) (itemTimestamp : String) :
    ResponseItem :=
  { original := comment.body
    analysis := "Analysis unavailable."
    sentiment := "objective"
    stored := JsVal.bool false
    timestamp := itemTimestamp
    source := none }

/-- The response item built after a successful enrichment. -/
def enrichedItem (comment : SourceItem) (a : AnalysisResult)
    (itemTimestamp sourceName : String) : ResponseItem :=
  { original := comment.body
    analysis := a.summary
    sentiment := a.sentiment
    stored := JsVal.bool true
    timestamp := itemTimestamp
    source := some sourceName }

/-- The record appended to `storedItems` after a successful enrichment. -/
def newStoredRecord (comment : SourceItem) (a : AnalysisResult)
    (notificationEmail sourceName itemTimestamp : String) : StoredRecord :=
  { id := some comment.id
    email := notificationEmail
    source := sourceName
    original := comment.body
    analysis := a.summary
    sentiment := a.sentiment
    stored := JsVal.bool true
    timestamp := itemTimestamp }

/-- The mutable state of the per-comment loop, plus the `enrichCalls` trace
that records the ids of the comments for which the Enrichment Client was
invoked. -/
structure LoopState where
  items : List ResponseItem
  errors : List StageError
  stored : List StoredRecord
  quotaExceeded : Bool
  enrichCalls : List Nat
deriving DecidableEq, Repr

/-- One iteration of the `for (const comment of comments)` loop.  `cache` is
the `cachedById` map built before the loop (loop-time pushes to
`storedItems` do not enter it); `enrich` is the outcome of
`analyzeWithGemini` on a given comment. -/
def processComment (cache : List StoredRecord)
    (enrich : SourceItem → Except String AnalysisResult)
    (notificationEmail sourceName : String) (st : LoopState)
    (comment : SourceItem) (itemTimestamp : String) : LoopState :=
  match cacheGet cache comment.id with
  | some cached =>
    { st with
        items := st.items ++ [cacheHitItem cached comment itemTimestamp sourceName] }
  | none =>
    if st.quotaExceeded then
      { st with items := st.items ++ [placeholderItem comment itemTimestamp] }
    else
      match enrich comment with
      | Except.ok a =>
        { st with
            items := st.items ++ [enrichedItem comment a itemTimestamp sourceName]
            stored := st.stored ++
              [newStoredRecord comment a notificationEmail sourceName itemTimestamp]
            enrichCalls := st.enrichCalls ++ [comment.id] }
      | Except.error msg =>
        if isQuotaError msg then
          { st with
              errors := st.errors ++
                (if st.quotaExceeded then []
                 else [StageError.analysis "Rate limit or quota exceeded" comment.id])
              quotaExceeded := true
              items := st.items ++ [placeholderItem comment itemTimestamp]
              enrichCalls := st.enrichCalls ++ [comment.id] }
        else
          { st with
              errors := st.errors ++ [StageError.analysis msg comment.id]
              items := st.items ++ [placeholderItem comment itemTimestamp]
              enrichCalls := st.enrichCalls ++ [comment.id] }

/-- The whole per-comment loop.  `tsFn i` is the `nowIso()` value observed at
the iteration for the comment at position `i`. -/
def runLoop (cache : List StoredRecord)
    (enrich : SourceItem → Except String AnalysisResult)
    (notificationEmail sourceName : String) (tsFn : Nat → String) :
    List SourceItem → Nat → LoopState → LoopState
  | [], _, st => st
  | c :: rest, i, st =>
    runLoop cache enrich notificationEmail sourceName tsFn rest (i + 1)
      (processComment cache enrich notificationEmail sourceName st c (tsFn i))

/-- The outcome of the source fetch when it throws: the error message and the
optional `status` attached to the error. -/
structure FetchFailure where
  message : String
  status : Option Nat
deriving DecidableEq, Repr

/-- `fetchComments` after a successful HTTP exchange: a non-array body
(`data = none`) yields `[]`, otherwise the first `MAX_ITEMS = 3` items. -/
def fetchComments (data : Option (List SourceItem)) : List SourceItem :=
  (data.getD []).take 3

/-- The post-loop normalization of `response.items`: the map coercing
`stored` with `Boolean(...)`, followed by the `forEach` that turns a missing
`stored` into `false`. -/
def finalizeItems (items : List ResponseItem) : List ResponseItem :=
  (items.map fun it => { it with stored := JsVal.bool it.stored.truthy }).map
    fun it =>
      if it.stored = JsVal.undef then { it with stored := JsVal.bool false }
      else it

/-- The top-level response object. -/
structure PipelineResponse where
  items : List ResponseItem
  notificationSent : Bool
  processedAt : String
  errors : List StageError
deriving DecidableEq, Repr

/-- Everything one invocation of the handler produces: the HTTP response
body, the collection passed to `saveStorage`, and the trace of enrichment
calls. -/
structure PipelineOutcome where
  response : PipelineResponse
  saved : List StoredRecord
  enrichCalls : List Nat
deriving DecidableEq, Repr

/-- The `status` recorded on a fetch StageError: `error.status || 500`. -/
def fetchErrorStatus (st : Option Nat) : Nat :=
  match st with
  | some s => if s = 0 then 500 else s
  | none => 500

/-- The comments the loop runs over, given the fetch outcome: a throw is
caught and leaves the batch empty. -/
def commentsOf (fetchResult : Except FetchFailure (Option (List SourceItem))) :
    List SourceItem :=
  match fetchResult with
  | Except.ok data => fetchComments data
  | Except.error _ => []

/-- The fetch-stage errors recorded before the loop starts: one entry when
the fetch threw, none otherwise. -/
def fetchStageErrors
    (fetchResult : Except FetchFailure (Option (List SourceItem))) :
    List StageError :=
  match fetchResult with
  | Except.ok _ => []
  | Except.error e => [StageError.fetch e.message (fetchErrorStatus e.status)]

/-- The loop state at the top of the per-comment loop: empty response, the
fetch-stage errors, the deduplicated stored collection, the latch off and no
enrichment call made yet. -/
def initLoopState
    (fetchResult : Except FetchFailure (Option (List SourceItem)))
    (loaded : List StoredRecord) : LoopState :=
  { items := [], errors := fetchStageErrors fetchResult,
    stored := dedupStored loaded, quotaExceeded := false, enrichCalls := [] }

/-- The POST path of the handler in `module.exports`, from the point where
the request body has been read.  `emailArg`/`sourceArg` are the request body
fields with `""` standing for an absent or falsy value; `loaded` is what
`loadStorage` returned; `saveError` is the outcome of `saveStorage` on the
final collection (`none` on success). -/
def runPipeline (emailArg sourceArg : String)
    (fetchResult : Except FetchFailure (Option (List SourceItem)))
    (loaded : List StoredRecord)
    (enrich : SourceItem → Except String AnalysisResult)
    (processedAt : String) (tsFn : Nat → String)
    (saveError : Option String) : PipelineOutcome :=
  let notificationEmail :=
    if emailArg = "" then "notification-email@example.com" else emailArg
  let sourceName :=
    if sourceArg = "" then "JSONPlaceholder Comments" else sourceArg
  let comments := commentsOf fetchResult
  let storedItems := dedupStored loaded
  let st := runLoop storedItems enrich notificationEmail sourceName tsFn
    comments 0 (initLoopState fetchResult loaded)
  let normalizedStoredItems := st.stored.map coerceStored
  let finalErrors := st.errors ++
    (match saveError with
     | some m => [StageError.storage m]
     | none => [])
  { response :=
      { items := finalizeItems st.items
        notificationSent := true
        processedAt := processedAt
        errors := finalErrors }
    saved := normalizedStoredItems
    enrichCalls := st.enrichCalls }

/-- The response item a latched (or cached) iteration emits for the comment
at position `i`: the cache-hit item when the id is cached, the placeholder
otherwise. -/
def latchedItem (cache : List StoredRecord) (sourceName : String)
    (tsFn : Nat → String) (i : Nat) (c : SourceItem) : ResponseItem :=
  match cacheGet cache c.id with
  | some cached => cacheHitItem cached c (tsFn i) sourceName
  | none => placeholderItem c (tsFn i)

/-- The items emitted for a comment list processed entirely under the quota
latch. -/
def latchedItems (cache : List StoredRecord) (sourceName : String)
    (tsFn : Nat → String) : List SourceItem → Nat → List ResponseItem
  | [], _ => []
  | c :: rest, i =>
    latchedItem cache sourceName tsFn i c ::
      latchedItems cache sourceName tsFn rest (i + 1)

/-- Is a stage error an analysis error with a quota-classified message? -/
def isQuotaStageError : StageError → Bool
  | StageError.analysis m _ => isQuotaError m
  | _ => false

/-- Number of quota-classified analysis errors in an error list. -/
def quotaErrorCount (errs : List StageError) : Nat :=
  (errs.filter isQuotaStageError).length

/-- Is a stage error a fetch-stage error? -/
def isFetchStageError : StageError → Bool
  | StageError.fetch _ _ => true
  | _ => false

/-! ### Basic lemmas about the loop shape -/

theorem processComment_items_length (cache : List StoredRecord)
    (enrich : SourceItem → Except String AnalysisResult)
    (em src : String) (st : LoopState) (c : SourceItem) (t : String) :
    (processComment cache enrich em src st c t).items.length =
      st.items.length + 1 := by
  unfold processComment
  rcases h : cacheGet cache c.id with _ | cached
  · simp only []
    by_cases hq : st.quotaExceeded
    · simp [hq]
    · simp only [hq, if_false]
      rcases he : enrich c with msg | a
      · by_cases hqe : isQuotaError msg <;> simp [hqe]
      · simp
  · simp

theorem runLoop_items_length (cache : List StoredRecord)
    (enrich : SourceItem → Except String AnalysisResult)
    (em src : String) (tsFn : Nat → String) :
    ∀ (cs : List SourceItem) (i : Nat) (st : LoopState),
      (runLoop cache enrich em src tsFn cs i st).items.length =
        st.items.length + cs.length
  | [], _, _ => rfl
  | c :: rest, i, st => by
    simp only [runLoop, runLoop_items_length cache enrich em src tsFn rest,
      processComment_items_length, List.length_cons]
    omega

theorem finalizeItems_length (items : List ResponseItem) :
    (finalizeItems items).length = items.length := by
  simp [finalizeItems]

theorem fetchComments_length_le (data : Option (List SourceItem)) :
    (fetchComments data).length ≤ 3 := by
  simp only [fetchComments, List.length_take]
  omega

/-- C3: the response's `items` sequence has exactly one entry per fetched
SourceItem (at most 3, in fetch order), whatever each item's enrichment
outcome was; with a failed fetch the batch and hence `items` are empty. -/
theorem itemsLength_spec (emailArg sourceArg : String)
    (fetchResult : Except FetchFailure (Option (List SourceItem)))
    (loaded : List StoredRecord)
    (enrich : SourceItem → Except String AnalysisResult)
    (pAt : String) (tsFn : Nat → String) (saveErr : Option String) :
    (runPipeline emailArg sourceArg fetchResult loaded enrich pAt tsFn
        saveErr).response.items.length = (commentsOf fetchResult).length ∧
    (commentsOf fetchResult).length ≤ 3 := by
  constructor
  · simp [runPipeline, initLoopState, finalizeItems_length, runLoop_items_length]
  · rcases fetchResult with e | data <;>
      simp [commentsOf, fetchComments_length_le]

/-- C8: `notificationSent` is `true` in the final response regardless of
stage outcomes; when the source fetch throws, `items` is empty and `errors`
carries exactly one fetch-stage StageError while `notificationSent` is still
`true`. -/
theorem notificationSent_spec :
    (∀ (emailArg sourceArg : String)
      (fetchResult : Except FetchFailure (Option (List SourceItem)))
      (loaded : List StoredRecord)
      (enrich : SourceItem → Except String AnalysisResult)
      (pAt : String) (tsFn : Nat → String) (saveErr : Option String),
      (runPipeline emailArg sourceArg fetchResult loaded enrich pAt tsFn
          saveErr).response.notificationSent = true) ∧
    (∀ (emailArg sourceArg : String) (e : FetchFailure)
      (loaded : List StoredRecord)
      (enrich : SourceItem → Except String AnalysisResult)
      (pAt : String) (tsFn : Nat → String) (saveErr : Option String),
      (runPipeline emailArg sourceArg (Except.error e) loaded enrich pAt tsFn
          saveErr).response.items = [] ∧
      ((runPipeline emailArg sourceArg (Except.error e) loaded enrich pAt tsFn
          saveErr).response.errors.filter isFetchStageError).length = 1) := by
  constructor
  · intro emailArg sourceArg fetchResult loaded enrich pAt tsFn saveErr
    simp [runPipeline]
  · intro emailArg sourceArg e loaded enrich pAt tsFn saveErr
    constructor
    · simp [runPipeline, initLoopState, commentsOf, runLoop, finalizeItems]
    · rcases saveErr with _ | m <;>
        simp [runPipeline, initLoopState, fetchStageErrors, commentsOf, runLoop,
          isFetchStageError]

/-! ### Cache lookup and latch lemmas -/

theorem cacheGet_eq_none_iff : ∀ (l : List StoredRecord) (i : Nat),
    cacheGet l i = none ↔ ∀ r ∈ l, r.id ≠ some i
  | [], i => by simp [cacheGet]
  | r :: rest, i => by
    have ih := cacheGet_eq_none_iff rest i
    simp only [cacheGet, List.mem_cons]
    rcases h : cacheGet rest i with _ | x
    · have hrest := ih.mp h
      by_cases hr : r.id = some i
      · simp only [hr, if_true]
        constructor
        · intro hc; cases hc
        · intro hall; exact absurd hr (hall r (Or.inl rfl))
      · simp only [hr, if_false, true_iff]
        intro r' hr'
        rcases hr' with rfl | hmem
        · exact hr
        · exact hrest r' hmem
    · constructor
      · intro hc; cases hc
      · intro hall
        have hn : cacheGet rest i = none :=
          ih.mpr (fun r' hm => hall r' (Or.inr hm))
        rw [hn] at h; cases h

theorem cacheGet_ne_none_of_mem_id (l : List StoredRecord) (i : Nat)
    (h : some i ∈ l.map StoredRecord.id) : cacheGet l i ≠ none := by
  intro hc
  rcases List.mem_map.mp h with ⟨r, hr, hid⟩
  exact (cacheGet_eq_none_iff l i).mp hc r hr hid

theorem processComment_latched (cache : List StoredRecord)
    (enrich : SourceItem → Except String AnalysisResult) (em src : String)
    (st : LoopState) (c : SourceItem) (t : String)
    (hq : st.quotaExceeded = true) :
    processComment cache enrich em src st c t =
      { st with
          items := st.items ++
            [match cacheGet cache c.id with
             | some cached => cacheHitItem cached c t src
             | none => placeholderItem c t] } := by
  unfold processComment
  rcases h : cacheGet cache c.id with _ | cached
  · simp [hq]
  · simp

theorem runLoop_latched (cache : List StoredRecord)
    (enrich : SourceItem → Except String AnalysisResult) (em src : String)
    (tsFn : Nat → String) :
    ∀ (cs : List SourceItem) (i : Nat) (st : LoopState),
      st.quotaExceeded = true →
      runLoop cache enrich em src tsFn cs i st =
        { st with items := st.items ++ latchedItems cache src tsFn cs i }
  | [], i, st, hq => by simp [runLoop, latchedItems]
  | c :: rest, i, st, hq => by
    have hpc := processComment_latched cache enrich em src st c (tsFn i) hq
    have hq' : (processComment cache enrich em src st c (tsFn i)).quotaExceeded
        = true := by rw [hpc]; exact hq
    simp only [runLoop, latchedItems]
    rw [runLoop_latched cache enrich em src tsFn rest (i + 1) _ hq', hpc]
    simp [latchedItem, List.append_assoc]

/-! ### Quota error counting -/

theorem quotaErrorCount_append (a b : List StageError) :
    quotaErrorCount (a ++ b) = quotaErrorCount a + quotaErrorCount b := by
  simp [quotaErrorCount, List.filter_append]

theorem isQuotaError_rate_message :
    isQuotaError "Rate limit or quota exceeded" = true := by decide

theorem quotaErrorCount_rate (i : Nat) :
    quotaErrorCount [StageError.analysis "Rate limit or quota exceeded" i]
      = 1 := by
  simp [quotaErrorCount, isQuotaStageError, isQuotaError_rate_message]

theorem quotaErrorCount_nonquota (msg : String) (i : Nat)
    (h : isQuotaError msg = false) :
    quotaErrorCount [StageError.analysis msg i] = 0 := by
  simp [quotaErrorCount, isQuotaStageError, h]

theorem processComment_quotaCount (cache : List StoredRecord)
    (enrich : SourceItem → Except String AnalysisResult) (em src : String)
    (st : LoopState) (c : SourceItem) (t : String)
    (h : quotaErrorCount st.errors ≤ if st.quotaExceeded then 1 else 0) :
    quotaErrorCount (processComment cache enrich em src st c t).errors ≤
      if (processComment cache enrich em src st c t).quotaExceeded then 1
      else 0 := by
  cases hq : st.quotaExceeded with
  | true =>
    rw [processComment_latched cache enrich em src st c t hq]
    simpa [hq] using h
  | false =>
    have h0 : quotaErrorCount st.errors = 0 := by
      simpa [hq] using h
    unfold processComment
    rcases hc : cacheGet cache c.id with _ | cached
    · simp only [hq]
      rcases he : enrich c with msg | a
      · cases hqe : isQuotaError msg with
        | true =>
          simp [hqe, hq, quotaErrorCount_append, h0, quotaErrorCount_rate]
        | false =>
          simp [hqe, hq, quotaErrorCount_append, h0,
            quotaErrorCount_nonquota msg c.id hqe]
      · simp [hq, h0]
    · simp [hq, h0]

theorem runLoop_quotaCount (cache : List StoredRecord)
    (enrich : SourceItem → Except String AnalysisResult) (em src : String)
    (tsFn : Nat → String) :
    ∀ (cs : List SourceItem) (i : Nat) (st : LoopState),
      quotaErrorCount st.errors ≤ (if st.quotaExceeded then 1 else 0) →
      quotaErrorCount (runLoop cache enrich em src tsFn cs i st).errors ≤
        (if (runLoop cache enrich em src tsFn cs i st).quotaExceeded then 1
         else 0)
  | [], i, st, h => by simpa [runLoop] using h
  | c :: rest, i, st, h => by
    simp only [runLoop]
    exact runLoop_quotaCount cache enrich em src tsFn rest (i + 1) _
      (processComment_quotaCount cache enrich em src st c (tsFn i) h)

theorem quotaCount_assembled (cache : List StoredRecord)
    (enrich : SourceItem → Except String AnalysisResult) (em src : String)
    (tsFn : Nat → String) (cs : List SourceItem) (i : Nat) (st : LoopState)
    (tail : List StageError) (h0 : quotaErrorCount st.errors = 0)
    (hq : st.quotaExceeded = false) (ht : quotaErrorCount tail = 0) :
    quotaErrorCount ((runLoop cache enrich em src tsFn cs i st).errors ++
      tail) ≤ 1 := by
  rw [quotaErrorCount_append, ht]
  have hrun := runLoop_quotaCount cache enrich em src tsFn cs i st
    (by rw [h0, hq]; simp)
  split at hrun <;> omega

/-- C1: once one enrichment failure is classified as a quota error, the
latch turns on with a single quota StageError naming that item; from a
latched state the rest of the batch makes no enrichment call, resolves every
non-cached item to the placeholder with a false `stored` flag, and adds no
error; and over a whole invocation at most one quota-classified analysis
error is ever reported. -/
theorem quotaLatch_spec :
    (∀ (cache : List StoredRecord)
       (enrich : SourceItem → Except String AnalysisResult)
       (em src : String) (st : LoopState) (c : SourceItem) (t msg : String),
       cacheGet cache c.id = none → st.quotaExceeded = false →
       enrich c = Except.error msg → isQuotaError msg = true →
       processComment cache enrich em src st c t =
         { st with
             items := st.items ++ [placeholderItem c t]
             errors := st.errors ++
               [StageError.analysis "Rate limit or quota exceeded" c.id]
             quotaExceeded := true
             enrichCalls := st.enrichCalls ++ [c.id] }) ∧
    (∀ (cache : List StoredRecord)
       (enrich : SourceItem → Except String AnalysisResult)
       (em src : String) (tsFn : Nat → String) (cs : List SourceItem)
       (i : Nat) (st : LoopState),
       st.quotaExceeded = true →
       runLoop cache enrich em src tsFn cs i st =
         { st with items := st.items ++ latchedItems cache src tsFn cs i }) ∧
    (∀ (emailArg sourceArg : String)
       (fetchResult : Except FetchFailure (Option (List SourceItem)))
       (loaded : List StoredRecord)
       (enrich : SourceItem → Except String AnalysisResult)
       (pAt : String) (tsFn : Nat → String) (saveErr : Option String),
       quotaErrorCount (runPipeline emailArg sourceArg fetchResult loaded
           enrich pAt tsFn saveErr).response.errors ≤ 1) := by
  refine ⟨?_, ?_, ?_⟩
  · intro cache enrich em src st c t msg hcache hq he hqe
    unfold processComment
    rw [hcache, hq, he]
    simp [hqe, hq]
  · intro cache enrich em src tsFn cs i st hq
    exact runLoop_latched cache enrich em src tsFn cs i st hq
  · intro emailArg sourceArg fetchResult loaded enrich pAt tsFn saveErr
    apply quotaCount_assembled
    · rcases fetchResult with e | d <;>
        simp [initLoopState, fetchStageErrors, quotaErrorCount,
          isQuotaStageError]
    · rfl
    · rcases saveErr with _ | m <;> simp [quotaErrorCount, isQuotaStageError]

/-- Witness for `quotaLatch_spec` at concrete inputs: a quota-classified
failure flips the latch and records the single quota error, and a latched
loop only emits latched items. -/
theorem quotaLatch_spec_witness :
    (processComment [] (fun _ => Except.error "429") "e" "s"
        ⟨[], [], [], false, []⟩ ⟨7, "b"⟩ "t" =
      { (⟨[], [], [], false, []⟩ : LoopState) with
          items := [] ++ [placeholderItem ⟨7, "b"⟩ "t"]
          errors := [] ++
            [StageError.analysis "Rate limit or quota exceeded" 7]
          quotaExceeded := true
          enrichCalls := [] ++ [7] }) ∧
    (runLoop [] (fun _ => Except.error "x") "e" "s" (fun _ => "t")
        [⟨8, "c"⟩] 0 ⟨[], [], [], true, []⟩ =
      { (⟨[], [], [], true, []⟩ : LoopState) with
          items := [] ++ latchedItems [] "s" (fun _ => "t") [⟨8, "c"⟩] 0 }) :=
  ⟨quotaLatch_spec.1 [] (fun _ => Except.error "429") "e" "s"
      ⟨[], [], [], false, []⟩ ⟨7, "b"⟩ "t" "429" rfl rfl rfl (by decide),
   quotaLatch_spec.2.1 [] (fun _ => Except.error "x") "e" "s" (fun _ => "t")
      [⟨8, "c"⟩] 0 ⟨[], [], [], true, []⟩ rfl⟩

/-! ### Cache-hit path -/

theorem processComment_cacheHit (cache : List StoredRecord)
    (enrich : SourceItem → Except String AnalysisResult) (em src : String)
    (st : LoopState) (c : SourceItem) (t : String) (cached : StoredRecord)
    (h : cacheGet cache c.id = some cached) :
    processComment cache enrich em src st c t =
      { st with items := st.items ++ [cacheHitItem cached c t src] } := by
  unfold processComment
  rw [h]

theorem runLoop_calls_all_cached (cache : List StoredRecord)
    (enrich : SourceItem → Except String AnalysisResult) (em src : String)
    (tsFn : Nat → String) :
    ∀ (cs : List SourceItem) (i : Nat) (st : LoopState),
      (∀ c ∈ cs, cacheGet cache c.id ≠ none) →
      (runLoop cache enrich em src tsFn cs i st).enrichCalls = st.enrichCalls
  | [], _, _, _ => rfl
  | c :: rest, i, st, h => by
    have hc := h c (List.mem_cons_self c rest)
    rcases hx : cacheGet cache c.id with _ | cached
    · exact absurd hx hc
    · simp only [runLoop]
      rw [processComment_cacheHit cache enrich em src st c (tsFn i) cached hx]
      exact runLoop_calls_all_cached cache enrich em src tsFn rest (i + 1) _
        (fun c' hm => h c' (List.mem_cons_of_mem c hm))

/-- C2: an item whose id is in the deduplicated stored collection never
reaches the Enrichment Client: the iteration only appends the cache-built
item (with a true `stored` flag) and leaves errors, the store, the latch
and the call trace untouched — unconditionally, in particular also when the
quota latch is already active; a batch consisting solely of cached ids makes
no enrichment call at all. -/
theorem cacheHit_spec :
    (∀ (cache : List StoredRecord)
       (enrich : SourceItem → Except String AnalysisResult)
       (em src : String) (st : LoopState) (c : SourceItem) (t : String)
       (cached : StoredRecord),
       cacheGet cache c.id = some cached →
       processComment cache enrich em src st c t =
         { st with items := st.items ++ [cacheHitItem cached c t src] }) ∧
    (∀ (emailArg sourceArg : String)
       (fetchResult : Except FetchFailure (Option (List SourceItem)))
       (loaded : List StoredRecord)
       (enrich : SourceItem → Except String AnalysisResult)
       (pAt : String) (tsFn : Nat → String) (saveErr : Option String),
       (∀ c ∈ commentsOf fetchResult,
         cacheGet (dedupStored loaded) c.id ≠ none) →
       (runPipeline emailArg sourceArg fetchResult loaded enrich pAt tsFn
           saveErr).enrichCalls = []) := by
  constructor
  · intro cache enrich em src st c t cached h
    exact processComment_cacheHit cache enrich em src st c t cached h
  · intro emailArg sourceArg fetchResult loaded enrich pAt tsFn saveErr hall
    exact runLoop_calls_all_cached (dedupStored loaded) enrich _ _ tsFn
      (commentsOf fetchResult) 0 _ hall

/-- Witness for `cacheHit_spec`: with a one-record cache and the latch
already active, the cached item is served without an enrichment call, and a
fully cached batch leaves the call trace empty. -/
theorem cacheHit_spec_witness :
    (processComment
        [⟨some 5, "e", "s", "o", "a", "positive", JsVal.bool true, "ts"⟩]
        (fun _ => Except.error "x") "e" "s" ⟨[], [], [], true, []⟩
        ⟨5, "b"⟩ "t" =
      { (⟨[], [], [], true, []⟩ : LoopState) with
          items := [] ++
            [cacheHitItem
              ⟨some 5, "e", "s", "o", "a", "positive", JsVal.bool true, "ts"⟩
              ⟨5, "b"⟩ "t" "s"] }) ∧
    (runPipeline "" "" (Except.ok (some [⟨5, "b"⟩]))
        [⟨some 5, "e", "s", "o", "a", "positive", JsVal.bool true, "ts"⟩]
        (fun _ => Except.error "x") "p" (fun _ => "t") none).enrichCalls
      = [] :=
  ⟨cacheHit_spec.1
      [⟨some 5, "e", "s", "o", "a", "positive", JsVal.bool true, "ts"⟩]
      (fun _ => Except.error "x") "e" "s" ⟨[], [], [], true, []⟩
      ⟨5, "b"⟩ "t"
      ⟨some 5, "e", "s", "o", "a", "positive", JsVal.bool true, "ts"⟩ rfl,
   cacheHit_spec.2 "" "" (Except.ok (some [⟨5, "b"⟩]))
      [⟨some 5, "e", "s", "o", "a", "positive", JsVal.bool true, "ts"⟩]
      (fun _ => Except.error "x") "p" (fun _ => "t") none (by decide)⟩

/-- C9: on a cache hit each falsy cached field is substituted in the emitted
item — `original` falls back to the fetched body, `analysis` to the fixed
placeholder, `timestamp` to the current item timestamp, `source` to the
effective source label — the cached sentiment is re-normalized, and the
Normalizer's output is always one of the three fixed categories. -/
theorem cacheFallback_spec :
    (∀ (cached : StoredRecord) (c : SourceItem) (t src : String),
      (cacheHitItem cached c t src).original =
        (if cached.original = "" then c.body else cached.original) ∧
      (cacheHitItem cached c t src).analysis =
        (if cached.analysis = "" then "Analysis unavailable."
         else cached.analysis) ∧
      (cacheHitItem cached c t src).timestamp =
        (if cached.timestamp = "" then t else cached.timestamp) ∧
      (cacheHitItem cached c t src).source =
        some (if cached.source = "" then src else cached.source) ∧
      (cacheHitItem cached c t src).sentiment =
        normalizeSentiment cached.sentiment ∧
      (cacheHitItem cached c t src).stored = JsVal.bool true) ∧
    (∀ s : String, normalizeSentiment s = "enthusiastic" ∨
      normalizeSentiment s = "critical" ∨
      normalizeSentiment s = "objective") ∧
    (∀ (cache : List StoredRecord)
       (enrich : SourceItem → Except String AnalysisResult)
       (em src : String) (st : LoopState) (c : SourceItem) (t : String)
       (cached : StoredRecord),
       cacheGet cache c.id = some cached →
       (processComment cache enrich em src st c t).items =
         st.items ++ [cacheHitItem cached c t src]) := by
  refine ⟨?_, ?_, ?_⟩
  · intro cached c t src
    exact ⟨rfl, rfl, rfl, rfl, rfl, rfl⟩
  · intro s
    simp only [normalizeSentiment]
    split
    · exact Or.inl rfl
    · split
      · exact Or.inr (Or.inl rfl)
      · exact Or.inr (Or.inr rfl)
  · intro cache enrich em src st c t cached h
    rw [processComment_cacheHit cache enrich em src st c t cached h]

/-- Witness for `cacheFallback_spec` at a concrete cached record with falsy
`original` and `timestamp` fields. -/
theorem cacheFallback_spec_witness :
    (processComment
        [⟨some 9, "e", "s", "", "a", "negative", JsVal.bool true, ""⟩]
        (fun _ => Except.error "x") "e" "s" ⟨[], [], [], false, []⟩
        ⟨9, "body9"⟩ "t9").items =
      [] ++
        [cacheHitItem ⟨some 9, "e", "s", "", "a", "negative",
          JsVal.bool true, ""⟩ ⟨9, "body9"⟩ "t9" "s"] :=
  cacheFallback_spec.2.2
    [⟨some 9, "e", "s", "", "a", "negative", JsVal.bool true, ""⟩]
    (fun _ => Except.error "x") "e" "s" ⟨[], [], [], false, []⟩
    ⟨9, "body9"⟩ "t9"
    ⟨some 9, "e", "s", "", "a", "negative", JsVal.bool true, ""⟩ rfl

/-! ### Model fallback and reply parsing -/

theorem dedupFirst_nodup : ∀ l : List String, (dedupFirst l).Nodup
  | [] => List.nodup_nil
  | s :: rest => by
    simp only [dedupFirst, List.nodup_cons]
    constructor
    · intro hmem
      have hne := (List.mem_filter.mp hmem).2
      simp at hne
    · exact (dedupFirst_nodup rest).filter _

theorem modelCandidates_nodup (m : String) : (modelCandidates m).Nodup :=
  (dedupFirst_nodup (m :: fallbackModels)).filter _

theorem modelCandidates_head (m : String) (hm : m ≠ "") :
    (modelCandidates m).head? = some m := by
  simp only [modelCandidates, dedupFirst]
  rw [List.filter_cons_of_pos (by simpa using hm)]
  rfl

theorem tryModelsAux_all_fail (provider : String → Except String String) :
    ∀ (ms : List String) (le : Option String) (m e : String),
      (∀ m' ∈ ms, ∃ e', provider m' = Except.error e' ∧
        isRetryableModelError e' = true) →
      provider m = Except.error e →
      tryModelsAux provider le (ms ++ [m]) = Except.error e
  | [], le, m, e, _, hm => by
    simp only [List.nil_append, tryModelsAux]
    rw [hm]
    by_cases hr : isRetryableModelError e
    · simp [hr, tryModelsAux]
    · simp [hr]
  | m' :: ms, le, m, e, hall, hm => by
    obtain ⟨e', he', hr'⟩ := hall m' (List.mem_cons_self m' ms)
    simp only [List.cons_append, tryModelsAux]
    rw [he']
    simp only [hr', if_true]
    exact tryModelsAux_all_fail provider ms (some e') m e
      (fun x hx => hall x (List.mem_cons_of_mem m' hx)) hm

/-- C5: the Enrichment Client tries a deduplicated candidate list headed by
the configured model; a success stops with the response text, a failure
matching the not-found/not-supported pattern moves to the next candidate,
any other failure stops at once, and when every candidate fails the last
encountered failure is the one propagated — also out of
`analyzeWithGemini` itself. -/
theorem modelFallback_spec :
    (∀ m : String, (modelCandidates m).Nodup) ∧
    (∀ m : String, m ≠ "" → (modelCandidates m).head? = some m) ∧
    (∀ (provider : String → Except String String) (le : Option String)
       (t m : String) (rest : List String),
       provider m = Except.ok t →
       tryModelsAux provider le (m :: rest) = Except.ok t) ∧
    (∀ (provider : String → Except String String) (le : Option String)
       (e m : String) (rest : List String),
       provider m = Except.error e → isRetryableModelError e = true →
       tryModelsAux provider le (m :: rest) =
         tryModelsAux provider (some e) rest) ∧
    (∀ (provider : String → Except String String) (le : Option String)
       (e m : String) (rest : List String),
       provider m = Except.error e → isRetryableModelError e = false →
       tryModelsAux provider le (m :: rest) = Except.error e) ∧
    (∀ (provider : String → Except String String) (ms : List String)
       (m e : String),
       (∀ m' ∈ ms, ∃ e', provider m' = Except.error e' ∧
         isRetryableModelError e' = true) →
       provider m = Except.error e →
       tryModelsAux provider none (ms ++ [m]) = Except.error e) ∧
    (∀ (apiKey m : String) (provider : String → Except String String)
       (parse : String → Option ParsedReply) (e : String),
       apiKey ≠ "" →
       tryModelsAux provider none (modelCandidates m) = Except.error e →
       analyzeWithGemini apiKey m provider parse = Except.error e) := by
  refine ⟨modelCandidates_nodup, modelCandidates_head, ?_, ?_, ?_,
    fun provider ms m e hall hm =>
      tryModelsAux_all_fail provider ms none m e hall hm, ?_⟩
  · intro provider le t m rest h
    simp only [tryModelsAux]
    rw [h]
  · intro provider le e m rest h hr
    simp only [tryModelsAux]
    rw [h]
    simp [hr]
  · intro provider le e m rest h hr
    simp only [tryModelsAux]
    rw [h]
    simp [hr]
  · intro apiKey m provider parse e hkey htry
    simp only [analyzeWithGemini, if_neg hkey]
    rw [htry]

/-- Witness for `modelFallback_spec`: a provider failing every candidate
with a retryable message propagates the failure of the last candidate. -/
theorem modelFallback_spec_witness :
    tryModelsAux (fun _ => Except.error "model not found") none
      (["a"] ++ ["b"]) = Except.error "model not found" :=
  modelFallback_spec.2.2.2.2.2.1 (fun _ => Except.error "model not found")
    ["a"] "b" "model not found"
    (fun _ _ => ⟨"model not found", rfl, by decide⟩) rfl

/-- C6 counterexample: when the provider reply is empty (so the structured
parse fails), the claim says the fallback summary is the raw trimmed
response text, but the source substitutes the fixed placeholder
`Analysis unavailable.` for the empty trimmed text. -/
theorem parseFallback_counterexample :
    analyzeWithGemini "k" "m" (fun _ => Except.ok "") (fun _ => none) =
      Except.ok ⟨"Analysis unavailable.", "objective"⟩ ∧
    jsTrim "" ≠ "Analysis unavailable." := by
  constructor
  · rfl
  · decide

/-- C6 (amended): on provider success the reply is fence-stripped and
parsed; if the parse fails, or yields a falsy summary field, the result
falls back to the raw trimmed response text as summary — or the fixed
placeholder when that trimmed text is empty — with sentiment from the
Normalizer on the raw text; otherwise the parsed summary is taken verbatim
and the parsed sentiment is normalized. -/
theorem parseFallback_spec (apiKey m : String)
    (provider : String → Except String String)
    (parse : String → Option ParsedReply) (t : String)
    (hkey : apiKey ≠ "")
    (htry : tryModelsAux provider none (modelCandidates m) = Except.ok t) :
    (parse (stripCodeFences t) = none →
      analyzeWithGemini apiKey m provider parse =
        Except.ok ⟨if jsTrim t = "" then "Analysis unavailable."
          else jsTrim t, normalizeSentiment t⟩) ∧
    (∀ p : ParsedReply, parse (stripCodeFences t) = some p →
      p.summary = "" →
      analyzeWithGemini apiKey m provider parse =
        Except.ok ⟨if jsTrim t = "" then "Analysis unavailable."
          else jsTrim t, normalizeSentiment t⟩) ∧
    (∀ p : ParsedReply, parse (stripCodeFences t) = some p →
      p.summary ≠ "" →
      analyzeWithGemini apiKey m provider parse =
        Except.ok ⟨p.summary, normalizeSentiment p.sentiment⟩) := by
  refine ⟨?_, ?_, ?_⟩
  · intro hp
    simp only [analyzeWithGemini, if_neg hkey]
    rw [htry]
    simp [hp]
  · intro p hp hs
    simp only [analyzeWithGemini, if_neg hkey]
    rw [htry]
    simp [hp, hs]
  · intro p hp hs
    simp only [analyzeWithGemini, if_neg hkey]
    rw [htry]
    simp [hp, hs]

/-- Witness for `parseFallback_spec`: a nonempty unparsable reply falls back
to its trimmed text as summary. -/
theorem parseFallback_spec_witness :
    analyzeWithGemini "k" "m" (fun _ => Except.ok " x ") (fun _ => none) =
      Except.ok ⟨if jsTrim " x " = "" then "Analysis unavailable."
        else jsTrim " x ", normalizeSentiment " x "⟩ :=
  (parseFallback_spec "k" "m" (fun _ => Except.ok " x ") (fun _ => none)
    " x " (by decide) rfl).1 rfl

/-! ### Load-time deduplication -/

theorem dedupStoredAux_ids : ∀ (loaded : List StoredRecord) (seen : List Nat),
    (∀ r ∈ dedupStoredAux seen loaded, ∃ i, r.id = some i ∧ i ∉ seen) ∧
    ((dedupStoredAux seen loaded).map StoredRecord.id).Nodup
  | [], seen => by simp [dedupStoredAux]
  | item :: rest, seen => by
    have ihSame := dedupStoredAux_ids rest seen
    rcases hid : item.id with _ | i
    · simpa [dedupStoredAux, hid] using ihSame
    · by_cases hmem : i ∈ seen
      · simpa [dedupStoredAux, hid, hmem] using ihSame
      · have ih := dedupStoredAux_ids rest (i :: seen)
        simp only [dedupStoredAux, hid, hmem, if_false, List.map_cons,
          List.nodup_cons, List.mem_cons]
        refine ⟨?_, ?_, ih.2⟩
        · rintro r (rfl | hr)
          · exact ⟨i, by simp [coerceStored, hid], hmem⟩
          · obtain ⟨j, hj, hjm⟩ := ih.1 r hr
            exact ⟨j, hj, fun hjs => hjm (List.mem_cons_of_mem i hjs)⟩
        · intro hmm
          rcases List.mem_map.mp hmm with ⟨r, hr, hrid⟩
          obtain ⟨j, hj, hjm⟩ := ih.1 r hr
          apply hjm
          have hsome : (some j : Option Nat) = some i := by
            rw [← hj, hrid]
            simp [coerceStored, hid]
          rw [Option.some.inj hsome]
          exact List.mem_cons_self i seen

theorem dedupStored_ids_nodup (loaded : List StoredRecord) :
    ((dedupStored loaded).map StoredRecord.id).Nodup :=
  (dedupStoredAux_ids loaded []).2

theorem dedupStored_id_ne_none (loaded : List StoredRecord) :
    ∀ r ∈ dedupStored loaded, r.id ≠ none := by
  intro r hr
  obtain ⟨i, hi, _⟩ := (dedupStoredAux_ids loaded []).1 r hr
  simp [hi]

theorem dedupStoredAux_mem_coerce :
    ∀ (loaded : List StoredRecord) (seen : List Nat),
      ∀ r ∈ dedupStoredAux seen loaded, ∃ r0, r = coerceStored r0
  | [], seen => by simp [dedupStoredAux]
  | item :: rest, seen => by
    rcases hid : item.id with _ | i
    · simpa [dedupStoredAux, hid] using dedupStoredAux_mem_coerce rest seen
    · by_cases hmem : i ∈ seen
      · simpa [dedupStoredAux, hid, hmem] using
          dedupStoredAux_mem_coerce rest seen
      · simp only [dedupStoredAux, hid, hmem, if_false, List.mem_cons]
        rintro r (rfl | hr)
        · exact ⟨item, rfl⟩
        · exact dedupStoredAux_mem_coerce rest (i :: seen) r hr

theorem dedupStoredAux_sublist :
    ∀ (loaded : List StoredRecord) (seen : List Nat),
      List.Sublist (dedupStoredAux seen loaded) (loaded.map coerceStored)
  | [], seen => by simp [dedupStoredAux]
  | item :: rest, seen => by
    rcases hid : item.id with _ | i
    · simp only [dedupStoredAux, hid, List.map_cons]
      exact (dedupStoredAux_sublist rest seen).cons _
    · by_cases hmem : i ∈ seen
      · simp only [dedupStoredAux, hid, List.map_cons]
        rw [if_pos hmem]
        exact (dedupStoredAux_sublist rest seen).cons _
      · simp only [dedupStoredAux, hid, List.map_cons]
        rw [if_neg hmem]
        exact (dedupStoredAux_sublist rest (i :: seen)).cons₂ _

theorem dedupStoredAux_find? :
    ∀ (loaded : List StoredRecord) (seen : List Nat) (i : Nat),
      i ∉ seen →
      (dedupStoredAux seen loaded).find? (fun r => r.id == some i) =
        (loaded.find? (fun r => r.id == some i)).map coerceStored
  | [], seen, i, h => by simp [dedupStoredAux]
  | item :: rest, seen, i, h => by
    rcases hid : item.id with _ | j
    · rw [List.find?_cons_of_neg _ (by simp [hid])]
      simp only [dedupStoredAux, hid]
      exact dedupStoredAux_find? rest seen i h
    · by_cases hmem : j ∈ seen
      · have hji : j ≠ i := fun hji => h (hji ▸ hmem)
        simp only [dedupStoredAux, hid]
        rw [if_pos hmem, List.find?_cons_of_neg _ (by simp [hid, hji])]
        exact dedupStoredAux_find? rest seen i h
      · by_cases hji : j = i
        · subst hji
          simp only [dedupStoredAux, hid]
          rw [if_neg hmem,
            List.find?_cons_of_pos _ (by simp [coerceStored, hid]),
            List.find?_cons_of_pos _ (by simp [hid])]
          rfl
        · simp only [dedupStoredAux, hid]
          rw [if_neg hmem,
            List.find?_cons_of_neg _ (by simp [coerceStored, hid, hji]),
            List.find?_cons_of_neg _ (by simp [hid, hji])]
          refine dedupStoredAux_find? rest (j :: seen) i ?_
          intro hc
          rcases List.mem_cons.mp hc with hc1 | hc2
          · exact hji hc1.symm
          · exact h hc2

/-- C7: a read failure or a parse failure makes `loadStorage` return the
empty collection; the loaded collection is then deduplicated by id keeping
the first occurrence in insertion order (the result is a sublist of the
coerced input, its ids are pairwise distinct, and the record found for each
id is the coercion of the first input record with that id), with every
surviving record's `stored` flag a strict boolean. -/
theorem loadDedup_spec :
    (∀ parse : String → Option (List StoredRecord),
      loadStorage none parse = []) ∧
    (∀ (content : String) (parse : String → Option (List StoredRecord)),
      parse content = none → loadStorage (some content) parse = []) ∧
    (∀ loaded : List StoredRecord,
      ((dedupStored loaded).map StoredRecord.id).Nodup) ∧
    (∀ loaded : List StoredRecord, ∀ r ∈ dedupStored loaded,
      ∃ b, r.stored = JsVal.bool b) ∧
    (∀ loaded : List StoredRecord,
      List.Sublist (dedupStored loaded) (loaded.map coerceStored)) ∧
    (∀ (loaded : List StoredRecord) (i : Nat),
      (dedupStored loaded).find? (fun r => r.id == some i) =
        (loaded.find? (fun r => r.id == some i)).map coerceStored) := by
  refine ⟨fun _ => rfl, ?_, dedupStored_ids_nodup, ?_, ?_, ?_⟩
  · intro content parse hp
    simp [loadStorage, hp]
  · intro loaded r hr
    obtain ⟨r0, rfl⟩ := dedupStoredAux_mem_coerce loaded [] r hr
    exact ⟨r0.stored.truthy, rfl⟩
  · intro loaded
    exact dedupStoredAux_sublist loaded []
  · intro loaded i
    exact dedupStoredAux_find? loaded [] i (by simp)

/-- Witness for `loadDedup_spec`: malformed persisted content loads as the
empty collection. -/
theorem loadDedup_spec_witness :
    loadStorage (some "not json") (fun _ => none) = [] :=
  loadDedup_spec.2.1 "not json" (fun _ => none) rfl

/-! ### Shape of the stored collection across the loop -/

theorem coerceStored_idem (r : StoredRecord) :
    coerceStored (coerceStored r) = coerceStored r := by
  simp [coerceStored, JsVal.truthy]

theorem map_coerceStored_fixed :
    ∀ l : List StoredRecord, (∀ r ∈ l, coerceStored r = r) →
      l.map coerceStored = l
  | [], _ => rfl
  | r :: rest, h => by
    simp only [List.map_cons]
    rw [h r (List.mem_cons_self r rest),
      map_coerceStored_fixed rest
        (fun x hx => h x (List.mem_cons_of_mem r hx))]

theorem dedupStored_coerce_fixed (loaded : List StoredRecord) :
    ∀ r ∈ dedupStored loaded, coerceStored r = r := by
  intro r hr
  obtain ⟨r0, rfl⟩ := dedupStoredAux_mem_coerce loaded [] r hr
  exact coerceStored_idem r0

theorem processComment_stored_decomp (cache : List StoredRecord)
    (enrich : SourceItem → Except String AnalysisResult) (em src : String)
    (st : LoopState) (c : SourceItem) (t : String) :
    (processComment cache enrich em src st c t).stored = st.stored ∨
    (∃ a, cacheGet cache c.id = none ∧
      (processComment cache enrich em src st c t).stored =
        st.stored ++ [newStoredRecord c a em src t]) := by
  unfold processComment
  rcases hc : cacheGet cache c.id with _ | cached
  · by_cases hq : st.quotaExceeded
    · left
      simp [hq]
    · rcases he : enrich c with msg | a
      · by_cases hqe : isQuotaError msg
        · left
          simp [hq, hqe]
        · left
          simp [hq, hqe]
      · right
        exact ⟨a, rfl, by simp [hq]⟩
  · left
    simp

theorem runLoop_stored_decomp (cache : List StoredRecord)
    (enrich : SourceItem → Except String AnalysisResult) (em src : String)
    (tsFn : Nat → String) :
    ∀ (cs : List SourceItem) (i : Nat) (st : LoopState),
      ∃ newRecs : List StoredRecord,
        (runLoop cache enrich em src tsFn cs i st).stored =
          st.stored ++ newRecs ∧
        ∀ rec ∈ newRecs, ∃ j, rec.id = some j ∧ cacheGet cache j = none
  | [], i, st => ⟨[], by simp [runLoop], by simp⟩
  | c :: rest, i, st => by
    obtain ⟨d, hd, hprop⟩ := runLoop_stored_decomp cache enrich em src tsFn
      rest (i + 1) (processComment cache enrich em src st c (tsFn i))
    rcases processComment_stored_decomp cache enrich em src st c (tsFn i)
      with hsame | ⟨a, hc, hpush⟩
    · refine ⟨d, ?_, hprop⟩
      simp only [runLoop]
      rw [hd, hsame]
    · refine ⟨newStoredRecord c a em src (tsFn i) :: d, ?_, ?_⟩
      · simp only [runLoop]
        rw [hd, hpush]
        simp
      · intro rec hrec
        rcases List.mem_cons.mp hrec with rfl | hm
        · exact ⟨c.id, rfl, hc⟩
        · exact hprop rec hm

theorem runLoop_stored_nodup (cache : List StoredRecord)
    (enrich : SourceItem → Except String AnalysisResult) (em src : String)
    (tsFn : Nat → String) :
    ∀ (cs : List SourceItem) (i : Nat) (st : LoopState),
      ((st.stored.map StoredRecord.id).Nodup) →
      ((cs.map SourceItem.id).Nodup) →
      (∀ c ∈ cs, some c.id ∈ st.stored.map StoredRecord.id →
        cacheGet cache c.id ≠ none) →
      (((runLoop cache enrich em src tsFn cs i st).stored.map
        StoredRecord.id).Nodup)
  | [], i, st, h1, _, _ => by simpa [runLoop] using h1
  | c :: rest, i, st, h1, h2, h3 => by
    have h2' : c.id ∉ rest.map SourceItem.id ∧
        (rest.map SourceItem.id).Nodup := by
      rw [List.map_cons, List.nodup_cons] at h2
      exact h2
    simp only [runLoop]
    rcases processComment_stored_decomp cache enrich em src st c (tsFn i)
      with hsame | ⟨a, hc, hpush⟩
    · refine runLoop_stored_nodup cache enrich em src tsFn rest (i + 1) _
        ?_ h2'.2 ?_
      · rw [hsame]; exact h1
      · intro c' hm hmem
        rw [hsame] at hmem
        exact h3 c' (List.mem_cons_of_mem c hm) hmem
    · refine runLoop_stored_nodup cache enrich em src tsFn rest (i + 1) _
        ?_ h2'.2 ?_
      · rw [hpush]
        have hnotin : some c.id ∉ st.stored.map StoredRecord.id := by
          intro hmem
          exact (h3 c (List.mem_cons_self c rest) hmem) hc
        rw [List.map_append]
        refine List.Nodup.append h1 (List.nodup_singleton _) ?_
        intro x hx hx1
        have hxid : x = some c.id := by
          simpa [newStoredRecord] using hx1
        exact hnotin (hxid ▸ hx)
      · intro c' hm hmem
        rw [hpush] at hmem
        rw [List.map_append] at hmem
        rcases List.mem_append.mp hmem with hmem | hmem
        · exact h3 c' (List.mem_cons_of_mem c hm) hmem
        · exfalso
          have hcc : c'.id = c.id := by
            simpa [newStoredRecord] using hmem
          exact h2'.1 (hcc ▸ List.mem_map_of_mem SourceItem.id hm)

/-- C4 counterexample: when the fetched batch itself contains two items with
the same id (nothing in the handler forbids this), both are enriched and
both records are pushed, so the collection passed to `save` carries two
records with the same id. -/
theorem savedDupIds_counterexample :
    ((runPipeline "" "" (Except.ok (some [⟨1, "a"⟩, ⟨1, "b"⟩])) []
        (fun _ => Except.ok ⟨"s", "objective"⟩) "p" (fun _ => "t")
        none).saved.map StoredRecord.id) = [some 1, some 1] ∧
    ¬ ([some 1, some 1] : List (Option Nat)).Nodup := by
  constructor
  · rfl
  · decide

/-- C4 (amended): provided the fetched items have pairwise-distinct ids (as
the upstream source provides), the collection passed to `save` contains no
two records with the same id; and unconditionally every record in it has a
strict-boolean `stored` field. -/
theorem savedNodup_spec (emailArg sourceArg : String)
    (fetchResult : Except FetchFailure (Option (List SourceItem)))
    (loaded : List StoredRecord)
    (enrich : SourceItem → Except String AnalysisResult)
    (pAt : String) (tsFn : Nat → String) (saveErr : Option String) :
    (((commentsOf fetchResult).map SourceItem.id).Nodup →
      (((runPipeline emailArg sourceArg fetchResult loaded enrich pAt tsFn
          saveErr).saved.map StoredRecord.id).Nodup)) ∧
    (∀ r ∈ (runPipeline emailArg sourceArg fetchResult loaded enrich pAt
        tsFn saveErr).saved, ∃ b, r.stored = JsVal.bool b) := by
  constructor
  · intro hnodup
    show ((((runLoop (dedupStored loaded) enrich
        (if emailArg = "" then "notification-email@example.com" else emailArg)
        (if sourceArg = "" then "JSONPlaceholder Comments" else sourceArg)
        tsFn (commentsOf fetchResult) 0
        (initLoopState fetchResult loaded)).stored).map coerceStored).map
      StoredRecord.id).Nodup
    rw [List.map_map]
    have hcomp : StoredRecord.id ∘ coerceStored = StoredRecord.id := rfl
    rw [hcomp]
    exact runLoop_stored_nodup (dedupStored loaded) enrich _ _ tsFn
      (commentsOf fetchResult) 0 _ (dedupStored_ids_nodup loaded) hnodup
      (fun c _ hmem => cacheGet_ne_none_of_mem_id _ _ hmem)
  · intro r hr
    rcases List.mem_map.mp hr with ⟨r0, _, rfl⟩
    exact ⟨r0.stored.truthy, rfl⟩

/-- Witness for `savedNodup_spec`: a batch with distinct ids yields a saved
collection with pairwise-distinct ids. -/
theorem savedNodup_spec_witness :
    ((runPipeline "" "" (Except.ok (some [⟨1, "a"⟩, ⟨2, "b"⟩])) []
        (fun _ => Except.ok ⟨"s", "objective"⟩) "p" (fun _ => "t")
        none).saved.map StoredRecord.id).Nodup :=
  (savedNodup_spec "" "" (Except.ok (some [⟨1, "a"⟩, ⟨2, "b"⟩])) []
    (fun _ => Except.ok ⟨"s", "objective"⟩) "p" (fun _ => "t") none).1
    (by decide)

/-- C10: the collection passed to `save` is exactly the deduplicated (and
coerced) survivors of the loaded collection, in their original relative
order, followed by the freshly enriched records, each of which carries a
cache-missing id; records dropped by load-time deduplication (null id or
duplicate id) are not among the survivors — the survivors all have non-null,
pairwise-distinct ids. -/
theorem storeFrame_spec (emailArg sourceArg : String)
    (fetchResult : Except FetchFailure (Option (List SourceItem)))
    (loaded : List StoredRecord)
    (enrich : SourceItem → Except String AnalysisResult)
    (pAt : String) (tsFn : Nat → String) (saveErr : Option String) :
    (∃ newRecs : List StoredRecord,
      (runPipeline emailArg sourceArg fetchResult loaded enrich pAt tsFn
          saveErr).saved = dedupStored loaded ++ newRecs ∧
      (∀ rec ∈ newRecs, ∃ j, rec.id = some j ∧
        cacheGet (dedupStored loaded) j = none)) ∧
    (∀ r ∈ dedupStored loaded, r.id ≠ none) ∧
    ((dedupStored loaded).map StoredRecord.id).Nodup := by
  refine ⟨?_, dedupStored_id_ne_none loaded, dedupStored_ids_nodup loaded⟩
  obtain ⟨d, hd, hprop⟩ := runLoop_stored_decomp (dedupStored loaded) enrich
    (if emailArg = "" then "notification-email@example.com" else emailArg)
    (if sourceArg = "" then "JSONPlaceholder Comments" else sourceArg)
    tsFn (commentsOf fetchResult) 0 (initLoopState fetchResult loaded)
  refine ⟨d.map coerceStored, ?_, ?_⟩
  · have hsaved : (runPipeline emailArg sourceArg fetchResult loaded enrich
        pAt tsFn saveErr).saved = ((runLoop (dedupStored loaded) enrich
        (if emailArg = "" then "notification-email@example.com" else emailArg)
        (if sourceArg = "" then "JSONPlaceholder Comments" else sourceArg)
        tsFn (commentsOf fetchResult) 0
        (initLoopState fetchResult loaded)).stored).map coerceStored := rfl
    rw [hsaved, hd]
    show (dedupStored loaded ++ d).map coerceStored =
      dedupStored loaded ++ d.map coerceStored
    rw [List.map_append,
      map_coerceStored_fixed _ (dedupStored_coerce_fixed loaded)]
  · intro rec hrec
    rcases List.mem_map.mp hrec with ⟨r0, hr0, rfl⟩
    obtain ⟨j, hj, hcg⟩ := hprop r0 hr0
    refine ⟨j, ?_, hcg⟩
    simp [coerceStored, hj]

/-- Witness for `storeFrame_spec` at a concrete one-record store: the
surviving collection has pairwise-distinct ids. -/
theorem storeFrame_spec_witness :
    ((dedupStored [⟨some 1, "e", "s", "o", "a", "p", JsVal.bool true,
      "t"⟩]).map StoredRecord.id).Nodup :=
  (storeFrame_spec "" "" (Except.ok (some []))
    [⟨some 1, "e", "s", "o", "a", "p", JsVal.bool true, "t"⟩]
    (fun _ => Except.ok ⟨"s", "objective"⟩) "p" (fun _ => "t") none).2.2
